import Mathlib

/-!
Verification of the attribution aggregator in `multimodal_agent.py`
(function `run_agent_and_get_attribution`, lines 21-78).

The model text (`full_content` in the source) is embedded as `List Char`.
The Python pieces are embedded as follows.

* `re.search(r'\*\*HEADER:\*\*(.*?)(?=\*\*|\Z)', t, re.DOTALL)`:
  the pattern matches at every occurrence of the literal header, so
  `re.search` picks the leftmost occurrence (`findSub`); the lazy group
  with the lookahead captures the shortest run of characters after the
  header whose remainder starts with `**` or is empty (`takeUntilStars`).
  `matchSection` returns the captured group, `none` when the header is
  absent.
* `"web search" in full_content.lower() or "external sources" in
  full_content.lower()` becomes `search_content_found`, built from a
  substring test (`containsL`) over the character-wise lowered text
  (`lowerL`).  The marker phrases are pure ASCII.
* `random.randint(a, b)` returns a uniformly drawn integer in `[a, b]`;
  it is embedded as `pyRandint a b seed = a + seed % (b - a + 1)` with an
  explicit seed, so a fixed seed fixes the draw and every value of the
  range is realised by some seed.
* `.strip()` is `strip` (leading/trailing whitespace removed; the ASCII
  whitespace characters of Python's default strip set), `.split('\n')`
  is `splitNl`.

The returned `attribution_data` dict (source lines 69-76) becomes the
structure `AttributionData`; `attributionKeys` records its keys in
source order.
-/

/-- ASCII whitespace stripped by Python's `str.strip()`. -/
def pyWs (c : Char) : Bool :=
  c = ' ' || c = '\t' || c = '\n' || c = '\r' || c = '\x0b' || c = '\x0c'

/-- Python `s.strip()`: remove leading and trailing whitespace. -/
def strip (l : List Char) : List Char :=
  ((l.dropWhile pyWs).reverse.dropWhile pyWs).reverse

/-- Python `s.split('\n')`: split on every newline, keeping empty pieces. -/
def splitNl : List Char → List (List Char)
  | [] => [[]]
  | c :: rest =>
    match splitNl rest with
    | [] => [[c]]
    | a :: as => if c = '\n' then [] :: a :: as else (c :: a) :: as

/-- Inverse of `splitNl`: rejoin the pieces with a newline between them. -/
def joinNl : List (List Char) → List Char
  | [] => []
  | [l] => l
  | l :: ls => l ++ '\n' :: joinNl ls

/-- Python `s.lower()`, character by character. -/
def lowerL (l : List Char) : List Char := l.map Char.toLower

/-- `isPre p l` holds iff `p` is a prefix of `l`. -/
def isPre : List Char → List Char → Bool
  | [], _ => true
  | _ :: _, [] => false
  | a :: as, b :: bs => (a == b) && isPre as bs

/-- Index of the leftmost occurrence of `p` as a substring of the text
(`none` when absent): the position `re.search` starts its match at, and
the test Python's `in` performs. -/
def findSub (p : List Char) : List Char → Option Nat
  | [] => if p = [] then some 0 else none
  | c :: rest => if isPre p (c :: rest) then some 0 else (findSub p rest).map (· + 1)

/-- Python `p in l`. -/
def containsL (p l : List Char) : Bool := (findSub p l).isSome

/-- The lazy group `(.*?)(?=\*\*|\Z)` under `re.DOTALL`: the shortest
prefix of the remainder whose continuation starts with `**` or is empty,
i.e. everything up to the next `**` or the end of the text. -/
def takeUntilStars : List Char → List Char
  | [] => []
  | [c] => [c]
  | a :: b :: rest =>
    if a = '*' ∧ b = '*' then [] else a :: takeUntilStars (b :: rest)

/-- `re.search(r'\*\*H:\*\*(.*?)(?=\*\*|\Z)', text, re.DOTALL)`, returning
the captured group of the leftmost match (source lines 41-43). -/
def matchSection (header text : List Char) : Option (List Char) :=
  (findSub header text).map (fun i => takeUntilStars (text.drop (i + header.length)))

/-- The bold header literal of the visual section (source line 41). -/
def vHeader : List Char := "**VISUAL FINDINGS:**".toList

/-- The bold header literal of the research section (source line 42). -/
def rHeader : List Char := "**RESEARCH FINDINGS:**".toList

/-- The bold header literal of the final answer (source line 43). -/
def aHeader : List Char := "**FINAL ANSWER:**".toList

/-- Fallback literal for an absent visual section (source line 61). -/
def noVisualFallback : List Char := "No specific visual findings detailed.".toList

/-- Fixed placeholder queries (source line 62). -/
def searchQueries : List (List Char) :=
  ["(Query 1 - Simulated)".toList, "(Query 2 - Simulated)".toList]

/-- Fixed placeholder snippets (source line 63). -/
def searchSnippets : List (List Char) :=
  ["(Snippet 1 from example.com)".toList, "(Snippet 2 from example.org)".toList]

/-- `random.randint(a, b)`: a uniformly drawn integer of `[a, b]`, embedded
with an explicit seed; every value of the range arises from some seed. -/
def pyRandint (a b seed : Nat) : Nat := a + seed % (b - a + 1)

/-- Source line 49: `"web search" in full_content.lower() or
"external sources" in full_content.lower()`. -/
def search_content_found (full_content : List Char) : Bool :=
  containsL "web search".toList (lowerL full_content) ||
    containsL "external sources".toList (lowerL full_content)

/-- Source lines 51-56: the drawn `search_score`. -/
def search_score_of (full_content : List Char) (seed : Nat) : Nat :=
  if search_content_found full_content then pyRandint 50 95 seed
  else pyRandint 5 50 seed

/-- Source line 61: `visual_match.group(1).strip() if visual_match else
"No specific visual findings detailed."`. -/
def visual_findings_raw (full_content : List Char) : List Char :=
  match matchSection vHeader full_content with
  | some g => strip g
  | none => noVisualFallback

/-- Source line 64: `answer_match.group(1).strip() if answer_match else
full_content`. -/
def final_answer_of (full_content : List Char) : List Char :=
  match matchSection aHeader full_content with
  | some g => strip g
  | none => full_content

/-- The `attribution_data` dict built at source lines 69-76.  The source
computes `search_match` (line 42) but never uses it: the dict has no
research-findings entry. -/
structure AttributionData where
  visual_score : Int
  search_score : Int
  visual_findings : List (List Char)
  search_queries : List (List Char)
  search_snippets : List (List Char)
  final_answer : List Char
deriving DecidableEq

/-- The keys of the `attribution_data` dict, in source order
(lines 70-75). -/
def attributionKeys : List String :=
  ["visual_score", "search_score", "visual_findings", "search_queries",
   "search_snippets", "final_answer"]

/-- The aggregator, source lines 41-78: parse the sections, derive the
tool-activity signal, draw the scores, assemble the record. -/
def run_agent_and_get_attribution (full_content : List Char) (seed : Nat) :
    AttributionData :=
  ⟨100 - (search_score_of full_content seed : Int),
   (search_score_of full_content seed : Int),
   splitNl (visual_findings_raw full_content),
   searchQueries,
   searchSnippets,
   final_answer_of full_content⟩

/-- Modelled from the spec's words (section-extraction algorithm): capture
from immediately after the header up to the next bold-marked header — one
of the three fixed header literals — or the end of the text.  Stated for
comparison with `matchSection`, which the source implements. -/
def specCapture : List Char → List Char
  | [] => []
  | c :: rest =>
    if isPre vHeader (c :: rest) || isPre rHeader (c :: rest) ||
        isPre aHeader (c :: rest) then []
    else c :: specCapture rest

/-- Modelled from the spec's words: leftmost header occurrence, then
capture up to the next of the three bold-marked headers or end of text. -/
def matchSectionSpec (header text : List Char) : Option (List Char) :=
  (findSub header text).map (fun i => specCapture (text.drop (i + header.length)))

/-- `hasCI p t`: the text `t` contains a substring whose character-wise
lowering is `p` — a case-insensitive substring occurrence. -/
def hasCI (p t : List Char) : Prop :=
  ∃ a s b, t = a ++ s ++ b ∧ lowerL s = p

/-- `noStars g`: the bold marker `**` occurs nowhere in `g`. -/
def noStars (g : List Char) : Prop :=
  ∀ a b, g ≠ a ++ '*' :: '*' :: b

/-! ### Prefix and substring search -/

theorem isPre_iff : ∀ p l : List Char, isPre p l = true ↔ ∃ t, l = p ++ t := by
  intro p
  induction p with
  | nil =>
    intro l
    simp [isPre]
  | cons a as ih =>
    intro l
    cases l with
    | nil =>
      simp [isPre]
    | cons b bs =>
      simp only [isPre, Bool.and_eq_true, beq_iff_eq, ih bs, List.cons_append]
      constructor
      · rintro ⟨hab, t, ht⟩
        subst hab
        subst ht
        exact ⟨t, rfl⟩
      · rintro ⟨t, ht⟩
        injection ht with h1 h2
        exact ⟨h1.symm, t, h2⟩

theorem findSub_isSome_iff :
    ∀ p l : List Char, (findSub p l).isSome = true ↔ ∃ a b, l = a ++ p ++ b := by
  intro p l
  induction l with
  | nil =>
    by_cases hp : p = []
    · subst hp
      constructor
      · intro _
        exact ⟨[], [], rfl⟩
      · intro _
        decide
    · have hnone : findSub p [] = none := by simp [findSub, hp]
      rw [hnone]
      simp only [Option.isSome_none]
      constructor
      · intro hh
        exact absurd hh (by simp)
      · rintro ⟨a, b, hab⟩
        exfalso
        have hlen := congrArg List.length hab
        have hp' : 0 < p.length := List.length_pos.mpr hp
        simp [List.length_append] at hlen
        omega
  | cons c rest ih =>
    simp only [findSub]
    by_cases hpre : isPre p (c :: rest) = true
    · simp only [if_pos hpre, Option.isSome_some, true_iff]
      rcases (isPre_iff p (c :: rest)).mp hpre with ⟨t, ht⟩
      exact ⟨[], t, by simpa using ht⟩
    · simp only [if_neg hpre]
      have hmap : (Option.map (· + 1) (findSub p rest)).isSome
          = (findSub p rest).isSome := by
        cases findSub p rest <;> rfl
      rw [hmap, ih]
      constructor
      · rintro ⟨a, b, hab⟩
        exact ⟨c :: a, b, by rw [hab]; rfl⟩
      · rintro ⟨a, b, hab⟩
        cases a with
        | nil =>
          exfalso
          apply hpre
          exact (isPre_iff p (c :: rest)).mpr ⟨b, by simpa using hab⟩
        | cons x xs =>
          injection hab with h1 h2
          exact ⟨xs, b, h2⟩

theorem containsL_iff (p l : List Char) :
    containsL p l = true ↔ ∃ a b, l = a ++ p ++ b :=
  findSub_isSome_iff p l

theorem findSub_first :
    ∀ (l p : List Char) (i : Nat), findSub p l = some i →
      (∃ b, l.drop i = p ++ b) ∧ ∀ j, j < i → ∀ b, l.drop j ≠ p ++ b := by
  intro l
  induction l with
  | nil =>
    intro p i h
    by_cases hp : p = []
    · subst hp
      have h0 : some 0 = some i := by
        rw [← h]
        rfl
      have : i = 0 := (Option.some.inj h0).symm
      subst this
      exact ⟨⟨[], rfl⟩, by omega⟩
    · exfalso
      have hnone : findSub p [] = none := by simp [findSub, hp]
      rw [hnone] at h
      exact absurd h (by simp)
  | cons c rest ih =>
    intro p i h
    simp only [findSub] at h
    by_cases hpre : isPre p (c :: rest) = true
    · rw [if_pos hpre] at h
      have : i = 0 := (Option.some.inj h).symm
      subst this
      refine ⟨?_, by omega⟩
      rcases (isPre_iff p (c :: rest)).mp hpre with ⟨t, ht⟩
      exact ⟨t, by simpa using ht⟩
    · rw [if_neg hpre] at h
      rcases Option.map_eq_some'.mp h with ⟨i', hi', hsucc⟩
      rcases ih p i' hi' with ⟨⟨b, hb⟩, hmin⟩
      subst hsucc
      constructor
      · exact ⟨b, by simpa using hb⟩
      · intro j hj b' hb'
        cases j with
        | zero =>
          apply hpre
          exact (isPre_iff p (c :: rest)).mpr ⟨b', by simpa using hb'⟩
        | succ j' =>
          exact hmin j' (by omega) b' (by simpa using hb')

/-! ### Case-insensitive containment -/

theorem lowerL_split :
    ∀ (x : List Char) (l y : List Char), lowerL l = x ++ y →
      ∃ u v, l = u ++ v ∧ lowerL u = x ∧ lowerL v = y := by
  intro x
  induction x with
  | nil =>
    intro l y h
    exact ⟨[], l, rfl, rfl, by simpa using h⟩
  | cons c x' ih =>
    intro l y h
    cases l with
    | nil =>
      exact absurd h (by simp [lowerL])
    | cons d l' =>
      simp only [lowerL, List.map_cons, List.cons_append] at h
      injection h with h1 h2
      rcases ih l' y h2 with ⟨u, v, hl, hu, hv⟩
      exact ⟨d :: u, v, by rw [hl]; rfl, by simp [lowerL] at hu ⊢; exact ⟨h1, hu⟩, hv⟩

theorem hasCI_iff (p t : List Char) :
    containsL p (lowerL t) = true ↔ hasCI p t := by
  rw [containsL_iff]
  constructor
  · rintro ⟨a, b, hab⟩
    rw [List.append_assoc] at hab
    rcases lowerL_split a t (p ++ b) hab with ⟨u, v, ht, hu, hv⟩
    rcases lowerL_split p v b hv with ⟨s, w, hvsw, hs, hw⟩
    refine ⟨u, s, w, ?_, hs⟩
    rw [ht, hvsw, List.append_assoc]
  · rintro ⟨a, s, b, ht, hs⟩
    refine ⟨lowerL a, lowerL b, ?_⟩
    rw [ht]
    simp only [lowerL, List.map_append, List.append_assoc]
    rw [← hs]
    rfl

theorem search_content_found_iff (t : List Char) :
    search_content_found t = true ↔
      hasCI "web search".toList t ∨ hasCI "external sources".toList t := by
  simp only [search_content_found, Bool.or_eq_true]
  rw [hasCI_iff, hasCI_iff]

/-! ### Score arithmetic -/

theorem search_score_of_eq (t : List Char) (r : Nat) :
    search_score_of t r
      = if search_content_found t then 50 + r % 46 else 5 + r % 46 := by
  simp [search_score_of, pyRandint]

theorem search_score_of_bounds (t : List Char) (r : Nat) :
    5 ≤ search_score_of t r ∧ search_score_of t r ≤ 95 := by
  rw [search_score_of_eq]
  have : r % 46 < 46 := Nat.mod_lt _ (by omega)
  by_cases h : search_content_found t = true
  · rw [if_pos h]
    omega
  · rw [if_neg h]
    omega

theorem run_search_score (t : List Char) (r : Nat) :
    (run_agent_and_get_attribution t r).search_score = (search_score_of t r : Int) :=
  rfl

theorem run_visual_score (t : List Char) (r : Nat) :
    (run_agent_and_get_attribution t r).visual_score
      = 100 - (search_score_of t r : Int) :=
  rfl

theorem run_visual_findings (t : List Char) (r : Nat) :
    (run_agent_and_get_attribution t r).visual_findings
      = splitNl (visual_findings_raw t) :=
  rfl

theorem run_final_answer (t : List Char) (r : Nat) :
    (run_agent_and_get_attribution t r).final_answer = final_answer_of t :=
  rfl

theorem run_evidence (t : List Char) (r : Nat) :
    (run_agent_and_get_attribution t r).search_queries = searchQueries ∧
      (run_agent_and_get_attribution t r).search_snippets = searchSnippets :=
  ⟨rfl, rfl⟩

/-! ### The lazy capture: up to the next bold marker -/

theorem takeUntilStars_spec :
    ∀ l : List Char, ∃ tail,
      l = takeUntilStars l ++ tail ∧ noStars (takeUntilStars l) ∧
        (tail = [] ∨ ∃ u, tail = '*' :: '*' :: u) := by
  intro l
  induction l with
  | nil =>
    refine ⟨[], rfl, ?_, Or.inl rfl⟩
    intro a b h
    have := congrArg List.length h
    simp [takeUntilStars, List.length_append] at this
    omega
  | cons x xs ih =>
    cases xs with
    | nil =>
      refine ⟨[], by simp [takeUntilStars], ?_, Or.inl rfl⟩
      intro a b h
      have := congrArg List.length h
      simp [takeUntilStars, List.length_append] at this
      omega
    | cons y ys =>
      by_cases hxy : x = '*' ∧ y = '*'
      · refine ⟨'*' :: '*' :: ys, ?_, ?_, Or.inr ⟨ys, rfl⟩⟩
        · simp only [takeUntilStars, if_pos hxy, List.nil_append]
          rw [hxy.1, hxy.2]
        · simp only [takeUntilStars, if_pos hxy]
          intro a b h
          have := congrArg List.length h
          simp [List.length_append] at this
          omega
      · rcases ih with ⟨tail, hdec, hns, htail⟩
        refine ⟨tail, ?_, ?_, htail⟩
        · simp only [takeUntilStars, if_neg hxy, List.cons_append]
          rw [← hdec]
        · simp only [takeUntilStars, if_neg hxy]
          intro a b h
          cases a with
          | nil =>
            simp only [List.nil_append] at h
            injection h with h1 h2
            rw [h2] at hdec
            injection hdec with hy _
            exact hxy ⟨h1, hy⟩
          | cons a0 as =>
            injection h with h1 h2
            exact hns as b h2

/-! ### Lines: splitting and rejoining -/

theorem splitNl_ne_nil : ∀ l : List Char, splitNl l ≠ [] := by
  intro l
  cases l with
  | nil => simp [splitNl]
  | cons c rest =>
    simp only [splitNl]
    cases splitNl rest with
    | nil => simp
    | cons a as =>
      by_cases h : c = '\n' <;> simp [h]

theorem joinNl_splitNl : ∀ l : List Char, joinNl (splitNl l) = l := by
  intro l
  induction l with
  | nil => rfl
  | cons c rest ih =>
    rcases hsr : splitNl rest with _ | ⟨a, as⟩
    · exact absurd hsr (splitNl_ne_nil rest)
    · rw [hsr] at ih
      simp only [splitNl, hsr]
      by_cases hc : c = '\n'
      · subst hc
        rw [if_pos rfl]
        show ([] : List Char) ++ '\n' :: joinNl (a :: as) = '\n' :: rest
        rw [List.nil_append, ih]
      · rw [if_neg hc]
        cases as with
        | nil =>
          show c :: a = c :: rest
          have : joinNl [a] = a := rfl
          rw [this] at ih
          rw [ih]
        | cons a2 as2 =>
          show (c :: a) ++ '\n' :: joinNl (a2 :: as2) = c :: rest
          have : joinNl (a :: a2 :: as2) = a ++ '\n' :: joinNl (a2 :: as2) := rfl
          rw [this] at ih
          rw [List.cons_append, ih]

theorem splitNl_no_newline : ∀ (l : List Char) (x : List Char),
    x ∈ splitNl l → '\n' ∉ x := by
  intro l
  induction l with
  | nil =>
    intro x hx
    simp [splitNl] at hx
    simp [hx]
  | cons c rest ih =>
    intro x hx
    rcases hsr : splitNl rest with _ | ⟨a, as⟩
    · exact absurd hsr (splitNl_ne_nil rest)
    · simp only [splitNl, hsr] at hx
      by_cases hc : c = '\n'
      · rw [if_pos hc] at hx
        rcases List.mem_cons.mp hx with hx0 | hx1
        · simp [hx0]
        · exact ih x (by rw [hsr]; exact hx1)
      · rw [if_neg hc] at hx
        rcases List.mem_cons.mp hx with hx0 | hx1
        · subst hx0
          intro hmem
          rcases List.mem_cons.mp hmem with h0 | h1
          · exact hc h0.symm
          · exact ih a (by rw [hsr]; exact List.mem_cons_self a as) h1
        · exact ih x (by rw [hsr]; exact List.mem_cons_of_mem a hx1)

/-! ### Section matching -/

theorem matchSection_none_iff (h t : List Char) :
    matchSection h t = none ↔ findSub h t = none := by
  unfold matchSection
  cases findSub h t <;> simp

theorem matchSection_eq_some (h t : List Char) (i : Nat)
    (hf : findSub h t = some i) :
    matchSection h t = some (takeUntilStars (t.drop (i + h.length))) := by
  unfold matchSection
  rw [hf]
  rfl

/-! ### The claims -/

/-- Claim C1: for every input text and seed, the record satisfies
`visual_score + search_score = 100` and both scores lie in `[0, 100]`. -/
theorem c1_score_invariant (t : List Char) (r : Nat) :
    (run_agent_and_get_attribution t r).visual_score
        + (run_agent_and_get_attribution t r).search_score = 100 ∧
      0 ≤ (run_agent_and_get_attribution t r).visual_score ∧
      (run_agent_and_get_attribution t r).visual_score ≤ 100 ∧
      0 ≤ (run_agent_and_get_attribution t r).search_score ∧
      (run_agent_and_get_attribution t r).search_score ≤ 100 := by
  obtain ⟨h1, h2⟩ := search_score_of_bounds t r
  simp only [run_visual_score, run_search_score]
  omega

/-- Claim C10: for every input text and seed, both scores lie in the
strictly tighter range `[5, 95]`; neither is ever 0 or 100. -/
theorem c10_tight_score_bounds (t : List Char) (r : Nat) :
    5 ≤ (run_agent_and_get_attribution t r).search_score ∧
      (run_agent_and_get_attribution t r).search_score ≤ 95 ∧
      5 ≤ (run_agent_and_get_attribution t r).visual_score ∧
      (run_agent_and_get_attribution t r).visual_score ≤ 95 ∧
      (run_agent_and_get_attribution t r).search_score ≠ 0 ∧
      (run_agent_and_get_attribution t r).search_score ≠ 100 ∧
      (run_agent_and_get_attribution t r).visual_score ≠ 0 ∧
      (run_agent_and_get_attribution t r).visual_score ≠ 100 := by
  obtain ⟨h1, h2⟩ := search_score_of_bounds t r
  simp only [run_visual_score, run_search_score]
  omega

/-- Claim C2: the tool-activity signal is true exactly when the text has
"web search" or "external sources" as a case-insensitive substring; a true
signal draws `search_score` as `50 + seed % 46`, so from `[50, 95]`, and a
false signal draws `5 + seed % 46`, so from `[5, 50]`; every value of the
respective range is realised by some seed. -/
theorem c2_tool_signal (t : List Char) (r : Nat) :
    (search_content_found t = true ↔
        hasCI "web search".toList t ∨ hasCI "external sources".toList t) ∧
      (search_content_found t = true →
        (run_agent_and_get_attribution t r).search_score = ((50 + r % 46 : Nat) : Int)) ∧
      (search_content_found t = false →
        (run_agent_and_get_attribution t r).search_score = ((5 + r % 46 : Nat) : Int)) ∧
      (search_content_found t = true →
        50 ≤ (run_agent_and_get_attribution t r).search_score ∧
          (run_agent_and_get_attribution t r).search_score ≤ 95) ∧
      (search_content_found t = false →
        5 ≤ (run_agent_and_get_attribution t r).search_score ∧
          (run_agent_and_get_attribution t r).search_score ≤ 50) ∧
      (search_content_found t = true → ∀ v : Nat, 50 ≤ v → v ≤ 95 →
        ∃ s, (run_agent_and_get_attribution t s).search_score = (v : Int)) ∧
      (search_content_found t = false → ∀ v : Nat, 5 ≤ v → v ≤ 50 →
        ∃ s, (run_agent_and_get_attribution t s).search_score = (v : Int)) := by
  refine ⟨search_content_found_iff t, ?_, ?_, ?_, ?_, ?_, ?_⟩
  · intro h
    rw [run_search_score, search_score_of_eq, if_pos h]
  · intro h
    rw [run_search_score, search_score_of_eq, if_neg (by rw [h]; exact Bool.false_ne_true)]
  · intro h
    rw [run_search_score, search_score_of_eq, if_pos h]
    have : r % 46 < 46 := Nat.mod_lt _ (by omega)
    omega
  · intro h
    rw [run_search_score, search_score_of_eq, if_neg (by rw [h]; exact Bool.false_ne_true)]
    have : r % 46 < 46 := Nat.mod_lt _ (by omega)
    omega
  · intro h v hv1 hv2
    refine ⟨v - 50, ?_⟩
    rw [run_search_score, search_score_of_eq, if_pos h]
    have : (v - 50) % 46 = v - 50 := Nat.mod_eq_of_lt (by omega)
    omega
  · intro h v hv1 hv2
    refine ⟨v - 5, ?_⟩
    rw [run_search_score, search_score_of_eq, if_neg (by rw [h]; exact Bool.false_ne_true)]
    have : (v - 5) % 46 = v - 5 := Nat.mod_eq_of_lt (by omega)
    omega

/-- Witness for C2 at a concrete text containing "Web Search" (mixed
case) and seed 7: the signal is true and the drawn score is 57. -/
theorem c2_tool_signal_witness :
    (run_agent_and_get_attribution ("We did a Web Search.".toList) 7).search_score = 57 ∧
      50 ≤ (run_agent_and_get_attribution ("We did a Web Search.".toList) 7).search_score := by
  have h := c2_tool_signal ("We did a Web Search.".toList) 7
  have hsig : search_content_found ("We did a Web Search.".toList) = true := by decide
  constructor
  · rw [h.2.1 hsig]
    decide
  · exact (h.2.2.2.1 hsig).1

theorem visual_findings_fallback (t : List Char) (h : findSub vHeader t = none) :
    visual_findings_raw t = noVisualFallback := by
  simp only [visual_findings_raw, (matchSection_none_iff vHeader t).mpr h]

theorem splitNl_noVisualFallback : splitNl noVisualFallback = [noVisualFallback] := by
  decide

/-- Claim C3 fails as stated: the capture stops at the next occurrence of
the bold marker even when it is inline emphasis and not a header.  On
`"**VISUAL FINDINGS:**A **red** car**FINAL ANSWER:**ok"` the spec-worded
extraction yields "A **red** car" while the code yields "A". -/
theorem c3_counterexample :
    (matchSectionSpec vHeader
        ("**VISUAL FINDINGS:**A **red** car**FINAL ANSWER:**ok".toList)).map strip
      = some ("A **red** car".toList) ∧
    (matchSection vHeader
        ("**VISUAL FINDINGS:**A **red** car**FINAL ANSWER:**ok".toList)).map strip
      = some ("A".toList) ∧
    (run_agent_and_get_attribution
        ("**VISUAL FINDINGS:**A **red** car**FINAL ANSWER:**ok".toList) 0).visual_findings
      = ["A".toList] ∧
    some ("A **red** car".toList) ≠ some ("A".toList) :=
  ⟨by decide, by decide, by decide, by decide⟩

/-- The regex capture of any of the three headers, characterised
extensionally: the group is the prefix of the post-header remainder
containing no `**`, whose continuation is empty or starts with `**`, the
header position is the first occurrence, and no header literal occurs
inside the capture. -/
theorem section_capture_spec (t hd : List Char) (i : Nat)
    (hf : findSub hd t = some i) :
    ∃ g tail,
      matchSection hd t = some g ∧
      t.drop (i + hd.length) = g ++ tail ∧
      noStars g ∧
      (tail = [] ∨ ∃ u, tail = '*' :: '*' :: u) ∧
      (∀ h', h' ∈ [vHeader, rHeader, aHeader] → ∀ a b, g ≠ a ++ h' ++ b) ∧
      (∀ j, j < i → ∀ b, t.drop j ≠ hd ++ b) := by
  obtain ⟨tail, hdec, hns, htail⟩ := takeUntilStars_spec (t.drop (i + hd.length))
  refine ⟨takeUntilStars (t.drop (i + hd.length)), tail,
    matchSection_eq_some _ _ _ hf, hdec, hns, htail, ?_,
    (findSub_first t hd i hf).2⟩
  intro h' hmem a b hgeq
  have hstar : ∃ hr, h' = '*' :: '*' :: hr := by
    rcases List.mem_cons.mp hmem with h1 | hmem2
    · exact ⟨"VISUAL FINDINGS:**".toList, by rw [h1]; decide⟩
    · rcases List.mem_cons.mp hmem2 with h2 | hmem3
      · exact ⟨"RESEARCH FINDINGS:**".toList, by rw [h2]; decide⟩
      · rcases List.mem_cons.mp hmem3 with h3 | hmem4
        · exact ⟨"FINAL ANSWER:**".toList, by rw [h3]; decide⟩
        · exact absurd hmem4 (by simp)
  obtain ⟨hr, hhd⟩ := hstar
  apply hns a (hr ++ b)
  rw [hgeq, hhd]
  simp [List.append_assoc]

/-- Claim C3 (amended): for every text containing a section's bold header
literal, the extracted section is exactly the text from immediately after
the first occurrence of the header up to the next occurrence of the bold
marker `**` — whether or not it begins a known header — or end of text;
the capture contains no `**`, hence never spans a header boundary even if
headers repeat or appear out of order.  The record stores the
whitespace-stripped capture: its line split as `visual_findings` for the
visual header, and the stripped capture itself as `final_answer` for the
final-answer header. -/
theorem c3_section_extraction (t : List Char) (r : Nat) :
    (∀ i, findSub vHeader t = some i →
      ∃ g tail,
        matchSection vHeader t = some g ∧
        t.drop (i + vHeader.length) = g ++ tail ∧
        noStars g ∧
        (tail = [] ∨ ∃ u, tail = '*' :: '*' :: u) ∧
        (∀ hd, hd ∈ [vHeader, rHeader, aHeader] → ∀ a b, g ≠ a ++ hd ++ b) ∧
        (∀ j, j < i → ∀ b, t.drop j ≠ vHeader ++ b) ∧
        (run_agent_and_get_attribution t r).visual_findings = splitNl (strip g)) ∧
    (∀ i, findSub aHeader t = some i →
      ∃ g tail,
        matchSection aHeader t = some g ∧
        t.drop (i + aHeader.length) = g ++ tail ∧
        noStars g ∧
        (tail = [] ∨ ∃ u, tail = '*' :: '*' :: u) ∧
        (∀ hd, hd ∈ [vHeader, rHeader, aHeader] → ∀ a b, g ≠ a ++ hd ++ b) ∧
        (∀ j, j < i → ∀ b, t.drop j ≠ aHeader ++ b) ∧
        (run_agent_and_get_attribution t r).final_answer = strip g) := by
  constructor
  · intro i hv
    obtain ⟨g, tail, hms, hdec, hns, htail, hnohd, hfirst⟩ :=
      section_capture_spec t vHeader i hv
    refine ⟨g, tail, hms, hdec, hns, htail, hnohd, hfirst, ?_⟩
    rw [run_visual_findings]
    simp only [visual_findings_raw, hms]
  · intro i ha
    obtain ⟨g, tail, hms, hdec, hns, htail, hnohd, hfirst⟩ :=
      section_capture_spec t aHeader i ha
    refine ⟨g, tail, hms, hdec, hns, htail, hnohd, hfirst, ?_⟩
    rw [run_final_answer]
    simp only [final_answer_of, hms]

/-- Witness for the amended C3 at a text holding both the visual and the
final-answer headers: both stored sections are the stripped captures. -/
theorem c3_section_extraction_witness :
    (run_agent_and_get_attribution
        ("**VISUAL FINDINGS:**\nred car\n**FINAL ANSWER:**ok".toList) 0).visual_findings
      = ["red car".toList] ∧
    (run_agent_and_get_attribution
        ("**VISUAL FINDINGS:**\nred car\n**FINAL ANSWER:**ok".toList) 0).final_answer
      = "ok".toList := by
  have h := c3_section_extraction
    ("**VISUAL FINDINGS:**\nred car\n**FINAL ANSWER:**ok".toList) 0
  constructor
  · obtain ⟨g, tail, hms, hdec, hns, htail, hnohd, hfirst, hvf⟩ := h.1 0 (by decide)
    have hconc : matchSection vHeader
        ("**VISUAL FINDINGS:**\nred car\n**FINAL ANSWER:**ok".toList)
        = some ("\nred car\n".toList) := by decide
    rw [hconc] at hms
    rw [hvf, (Option.some.inj hms).symm]
    decide
  · obtain ⟨g, tail, hms, hdec, hns, htail, hnohd, hfirst, hfa⟩ := h.2 29 (by decide)
    have hconc : matchSection aHeader
        ("**VISUAL FINDINGS:**\nred car\n**FINAL ANSWER:**ok".toList)
        = some ("ok".toList) := by decide
    rw [hconc] at hms
    rw [hfa, (Option.some.inj hms).symm]
    decide

/-- Claim C4 fails as stated: the empty text has no final-answer header,
so `final_answer` falls back to the whole (empty) text; a text that is
just the header with trailing whitespace strips to the empty answer. -/
theorem c4_counterexample :
    (run_agent_and_get_attribution [] 0).final_answer = [] ∧
      (run_agent_and_get_attribution ("**FINAL ANSWER:**   ".toList) 0).final_answer = [] :=
  ⟨by decide, by decide⟩

/-- Claim C4 (amended): when the final-answer header is absent,
`final_answer` is the entirety of the raw text; `final_answer` is empty
only when the raw text is itself empty or the header is present with a
section that strips to empty. -/
theorem c4_final_answer_fallback (t : List Char) (r : Nat) :
    (findSub aHeader t = none → (run_agent_and_get_attribution t r).final_answer = t) ∧
      ((run_agent_and_get_attribution t r).final_answer = [] →
        t = [] ∨ ∃ g, matchSection aHeader t = some g ∧ strip g = []) := by
  constructor
  · intro h
    rw [run_final_answer]
    simp only [final_answer_of, (matchSection_none_iff aHeader t).mpr h]
  · intro h
    rw [run_final_answer] at h
    rcases hms : matchSection aHeader t with _ | g
    · left
      have hfa : final_answer_of t = t := by simp only [final_answer_of, hms]
      rw [← hfa]
      exact h
    · right
      refine ⟨g, rfl, ?_⟩
      have hfa : final_answer_of t = strip g := by simp only [final_answer_of, hms]
      rw [← hfa]
      exact h

/-- Witness for the amended C4: a header-free text is returned whole. -/
theorem c4_final_answer_fallback_witness :
    (run_agent_and_get_attribution ("hello".toList) 3).final_answer = "hello".toList :=
  (c4_final_answer_fallback ("hello".toList) 3).1 (by decide)

/-- Claim C5: the aggregator is a total function over texts — every text,
the empty one included, yields a complete record whose scores satisfy the
sum-to-100 invariant and whose fields take their documented fallback
values when the corresponding headers are absent. -/
theorem c5_total_aggregator (t : List Char) (r : Nat) :
    (run_agent_and_get_attribution t r).visual_score
        + (run_agent_and_get_attribution t r).search_score = 100 ∧
      0 ≤ (run_agent_and_get_attribution t r).visual_score ∧
      (run_agent_and_get_attribution t r).visual_score ≤ 100 ∧
      0 ≤ (run_agent_and_get_attribution t r).search_score ∧
      (run_agent_and_get_attribution t r).search_score ≤ 100 ∧
      (run_agent_and_get_attribution t r).search_queries = searchQueries ∧
      (run_agent_and_get_attribution t r).search_snippets = searchSnippets ∧
      (findSub vHeader t = none →
        (run_agent_and_get_attribution t r).visual_findings = [noVisualFallback]) ∧
      (findSub aHeader t = none →
        (run_agent_and_get_attribution t r).final_answer = t) := by
  obtain ⟨h1, h2⟩ := search_score_of_bounds t r
  refine ⟨?_, ?_, ?_, ?_, ?_, rfl, rfl, ?_, ?_⟩
  · simp only [run_visual_score, run_search_score]
    omega
  · simp only [run_visual_score]
    omega
  · simp only [run_visual_score]
    omega
  · simp only [run_search_score]
    omega
  · simp only [run_search_score]
    omega
  · intro h
    rw [run_visual_findings, visual_findings_fallback t h]
    exact splitNl_noVisualFallback
  · intro h
    rw [run_final_answer]
    simp only [final_answer_of, (matchSection_none_iff aHeader t).mpr h]

/-- Witness for C5 at the empty text (spec scenario C): all fields fall
back and the invariant holds. -/
theorem c5_total_aggregator_witness :
    (run_agent_and_get_attribution [] 0).visual_findings = [noVisualFallback] ∧
      (run_agent_and_get_attribution [] 0).final_answer = [] ∧
      (run_agent_and_get_attribution [] 0).visual_score
        + (run_agent_and_get_attribution [] 0).search_score = 100 := by
  have h := c5_total_aggregator [] 0
  exact ⟨h.2.2.2.2.2.2.2.1 (by decide), h.2.2.2.2.2.2.2.2 (by decide), h.1⟩

/-- Claim C6: with the injected randomness fixed, the aggregator is
deterministic — identical text and seed yield an identical record. -/
theorem c6_deterministic (t1 t2 : List Char) (s1 s2 : Nat)
    (ht : t1 = t2) (hs : s1 = s2) :
    run_agent_and_get_attribution t1 s1 = run_agent_and_get_attribution t2 s2 := by
  rw [ht, hs]

/-- Witness for C6: two runs on equal text and seed agree. -/
theorem c6_deterministic_witness :
    run_agent_and_get_attribution (("ab" ++ "c").toList) 5
      = run_agent_and_get_attribution ("abc".toList) 5 :=
  c6_deterministic _ _ _ _ (by decide) rfl

/-- Claim C7 fails on the code: the `attribution_data` dict has exactly
six keys and none of them is a research-findings field — the research
match of source line 42 is computed but never used.  At the empty text
the full record is the six fallback fields. -/
theorem c7_no_research_field :
    ("research_findings" ∉ attributionKeys) ∧
      attributionKeys.length = 6 ∧
      run_agent_and_get_attribution [] 0
        = ⟨95, 5, [noVisualFallback], searchQueries, searchSnippets, []⟩ :=
  ⟨by decide, rfl, by decide⟩

/-- Claim C8: when the visual header is absent, `visual_findings` is the
single-element list holding the fixed fallback literal. -/
theorem c8_visual_fallback (t : List Char) (r : Nat)
    (h : findSub vHeader t = none) :
    (run_agent_and_get_attribution t r).visual_findings = [noVisualFallback] := by
  rw [run_visual_findings, visual_findings_fallback t h]
  exact splitNl_noVisualFallback

/-- Witness for C8 at a header-free text. -/
theorem c8_visual_fallback_witness :
    (run_agent_and_get_attribution ("no markers here".toList) 2).visual_findings
      = [noVisualFallback] :=
  c8_visual_fallback ("no markers here".toList) 2 (by decide)

/-- Claim C9: when the visual section is present, `visual_findings` is the
newline split of the stripped capture: the section's lines in their
original order — rejoining them with newlines reproduces the stripped
section exactly, so interior blank lines are preserved in position — and
no element contains a newline. -/
theorem c9_visual_lines (t : List Char) (r : Nat) (g : List Char)
    (h : matchSection vHeader t = some g) :
    (run_agent_and_get_attribution t r).visual_findings = splitNl (strip g) ∧
      joinNl ((run_agent_and_get_attribution t r).visual_findings) = strip g ∧
      ∀ x, x ∈ (run_agent_and_get_attribution t r).visual_findings → '\n' ∉ x := by
  have hvr : visual_findings_raw t = strip g := by
    simp only [visual_findings_raw, h]
  refine ⟨?_, ?_, ?_⟩
  · rw [run_visual_findings, hvr]
  · rw [run_visual_findings, hvr, joinNl_splitNl]
  · rw [run_visual_findings, hvr]
    intro x hx
    exact splitNl_no_newline (strip g) x hx

/-- Witness for C9: a visual section with an interior blank line splits
into its lines with the blank kept in place. -/
theorem c9_visual_lines_witness :
    (run_agent_and_get_attribution
        ("**VISUAL FINDINGS:**\na\n\nb\n**FINAL ANSWER:**x".toList) 0).visual_findings
      = ["a".toList, [], "b".toList] := by
  have h := c9_visual_lines
    ("**VISUAL FINDINGS:**\na\n\nb\n**FINAL ANSWER:**x".toList) 0
    ("\na\n\nb\n".toList) (by decide)
  rw [h.1]
  decide
